import Mathlib

/-!
# opencombine::span — a non-owning view over contiguous storage

Shallow embedding of `Sources/COpenCombineHelpers/stl_polyfill/span.h`.

Modelling conventions
* A pointer `T*` is an element-granular address, a natural number; `nullptr`
  is address `0`.  Pointer arithmetic (`p + n`, `q - p`) on these is exact, which
  is what the machine computes for every view that lies in memory.
* For views that do not (an end beyond the `w`-bit address space), `begin_bytes`,
  `end_bytes` and `distance_bytes` give the machine's computation on `w`-bit byte
  addresses, wrapping modulo `2 ^ w`, with `sz` the size of an element in bytes.
* `size_t` (`index_type`) values are natural numbers; the only place where a
  value is converted into `size_t` is the pointer-pair constructor, where the
  conversion is the explicit `% 2 ^ w` (`w` the bit width of `size_t`).
* Memory is a partial map from addresses to elements.  Dereferencing an
  address that holds no element is undefined behaviour (`Outcome.undefined`).
* A returned C++ reference `T&` is the address of the element; `load` reads
  through it.
* Loops of the standard library (`std::equal`, iterator traversal) take a
  fuel argument; theorems show that fuel above the view size is enough.
-/

namespace opencombine

/-- Outcome of running a piece of the program. -/
inductive Outcome (α : Type) where
  | ok (value : α)
  | assertion_failure
  | undefined
  | out_of_fuel
  deriving DecidableEq, Repr

/-- Sequencing of outcomes: a failure of the first step is the failure of the whole. -/
def Outcome.bind {α β : Type} : Outcome α → (α → Outcome β) → Outcome β
  | .ok a, f => f a
  | .assertion_failure, _ => .assertion_failure
  | .undefined, _ => .undefined
  | .out_of_fuel, _ => .out_of_fuel

/-- Post-processing of a successful outcome. -/
def Outcome.map {α β : Type} (f : α → β) : Outcome α → Outcome β
  | .ok a => .ok (f a)
  | .assertion_failure => .assertion_failure
  | .undefined => .undefined
  | .out_of_fuel => .out_of_fuel

/-- The type `T*` (also `const T*`, `iterator`, `const_iterator`): an element address. -/
abbrev pointer := Nat

/-- The null pointer. -/
def nullptr : pointer := 0

/-- The type `index_type = size_t`. -/
abbrev index_type := Nat

/-- The type `differenc_type = ptrdiff_t` (spelled as in the source). -/
abbrev differenc_type := Int

/-- Memory: which element, if any, lives at each address. -/
abbrev Memory (T : Type) := pointer → Option T

/-- Memory with nothing allocated. -/
def Memory.empty {T : Type} : Memory T := fun _ => none

/-- Memory `m` with the block `xs` allocated at addresses `base, base + 1, ...`. -/
def Memory.place {T : Type} (m : Memory T) (base : pointer) (xs : List T) : Memory T :=
  fun p => if base ≤ p ∧ p < base + xs.length then xs[p - base]? else m p

/-- Reading through a reference (`*p`): undefined when nothing lives at `p`. -/
def load {T : Type} (m : Memory T) (p : pointer) : Outcome T :=
  match m p with
  | some v => .ok v
  | none => .undefined

/-- Pointer difference `last - first`, a `ptrdiff_t`. -/
def ptr_diff (last first : pointer) : differenc_type := (last : Int) - (first : Int)

/-- Conversion of a `ptrdiff_t` to the `w`-bit unsigned `size_t`. -/
def to_index_type (w : Nat) (d : differenc_type) : index_type := (d % (2 : Int) ^ w).toNat

/-- The standard macro `assert(cond)`: aborts when assertions are enabled and the
condition is false; `enabled = false` is a build with `NDEBUG`, where the macro
expands to nothing. -/
def assert (enabled : Bool) (cond : Bool) : Outcome Unit :=
  if enabled && !cond then .assertion_failure else .ok ()

/-- The class `span<T>`: private members `data_` and `size_`. -/
structure span where
  data_ : pointer
  size_ : index_type
  deriving DecidableEq, Repr

/-- Source: `span() : data_(nullptr), size_(0) {}` -/
def span.span_default : span := { data_ := nullptr, size_ := 0 }

/-- Source: `span(pointer ptr, index_type count) : data_(ptr), size_(count) {}` -/
def span.span_count (ptr : pointer) (count : index_type) : span :=
  { data_ := ptr, size_ := count }

/-- Source: `span(pointer first, pointer last) : span(first, last - first) {}` -/
def span.span_range (w : Nat) (first last : pointer) : span :=
  span.span_count first (to_index_type w (ptr_diff last first))

/-- Source: `span(const span& other) = default` and `operator=(const span&) = default`. -/
def span.span_copy (other : span) : span :=
  { data_ := other.data_, size_ := other.size_ }

/-- Source: `const_reference operator[](index_type index) const` -/
def span.subscript_const (assert_enabled : Bool) (self : span) (index : index_type) :
    Outcome pointer :=
  (assert assert_enabled (decide (index < self.size_))).bind fun _ =>
    .ok (self.data_ + index)

/-- Source: `reference operator[](index_type index)` -/
def span.subscript_mut (assert_enabled : Bool) (self : span) (index : index_type) :
    Outcome pointer :=
  (assert assert_enabled (decide (index < self.size_))).bind fun _ =>
    .ok (self.data_ + index)

/-- Source: `const_pointer data() const { return data_; }` -/
def span.data_const (self : span) : pointer := self.data_

/-- Source: `pointer data() { return data_; }` -/
def span.data_mut (self : span) : pointer := self.data_

/-- Source: `index_type size() const { return size_; }` -/
def span.size (self : span) : index_type := self.size_

/-- Source: `const_iterator begin() const { return data_; }` -/
def span.begin_const (self : span) : pointer := self.data_

/-- Source: `iterator begin() { return data_; }` -/
def span.begin_mut (self : span) : pointer := self.data_

/-- Source: `const_iterator end() const { return data_ + size_; }`, in exact arithmetic
on element addresses (`span.end_bytes` is the wrapping `w`-bit computation). -/
def span.end_const (self : span) : pointer := self.data_ + self.size_

/-- Source: `iterator end() { return data_ + size_; }`, in exact arithmetic on element
addresses (`span.end_bytes` is the wrapping `w`-bit computation). -/
def span.end_mut (self : span) : pointer := self.data_ + self.size_

/-- A result together with the addresses that were read while computing it. -/
structure Run (α : Type) where
  result : Outcome α
  reads : List pointer
  deriving DecidableEq, Repr

/-- The standard library's three-iterator `std::equal(first1, last1, first2)` over raw
pointers, as the C++ standard defines it:
`for (; first1 != last1; ++first1, ++first2) if (!(*first1 == *first2)) return false;`
followed by `return true;`, with `eq` the element type's `operator==`.  Each
iteration consumes one unit of fuel; the addresses dereferenced are recorded. -/
def std_equal {T : Type} (m : Memory T) (eq : T → T → Bool) :
    Nat → pointer → pointer → pointer → Run Bool
  | 0, _, _, _ => { result := .out_of_fuel, reads := [] }
  | fuel + 1, first1, last1, first2 =>
    if first1 != last1 then
      match m first1, m first2 with
      | some a, some b =>
        if eq a b then
          let rest := std_equal m eq fuel (first1 + 1) last1 (first2 + 1)
          { result := rest.result, reads := first1 :: first2 :: rest.reads }
        else { result := .ok false, reads := [first1, first2] }
      | _, _ => { result := .undefined, reads := [first1, first2] }
    else { result := .ok true, reads := [] }

/-- Source: `bool operator==(const span& other) const`:
`size_ == other.size_ && std::equal(begin(), end(), other.begin())`. -/
def span.operator_eq {T : Type} (m : Memory T) (eq : T → T → Bool) (fuel : Nat)
    (self other : span) : Run Bool :=
  if self.size_ == other.size_ then
    std_equal m eq fuel self.begin_const self.end_const other.begin_const
  else { result := .ok false, reads := [] }

/-- Source: `bool operator!=(const span& other) const { return !operator==(other); }` -/
def span.operator_ne {T : Type} (m : Memory T) (eq : T → T → Bool) (fuel : Nat)
    (self other : span) : Run Bool :=
  let r := span.operator_eq m eq fuel self other
  { result := r.result.map (fun b => !b), reads := r.reads }

/-- Source: `std::distance(first, last)` on random-access iterators: `last - first`, in
exact arithmetic on element addresses (`distance_bytes` is the `w`-bit computation). -/
def distance (first last : pointer) : differenc_type := ptr_diff last first

/-- Forward traversal by a caller, `for (it = first; it != last; ++it) visit(*it)`:
the positions visited, each with the element found there.  Each iteration consumes
one unit of fuel. -/
def for_each {T : Type} (m : Memory T) : Nat → pointer → pointer → Outcome (List (pointer × T))
  | 0, _, _ => .out_of_fuel
  | fuel + 1, it, last =>
    if it != last then
      (load m it).bind fun v =>
        (for_each m fuel (it + 1) last).map fun rest => (it, v) :: rest
    else .ok []

/-- The standard adaptor `std::reverse_iterator<T*>` (the member types
`reverse_iterator` and `const_reverse_iterator`): wraps the iterator `current`. -/
structure reverse_iterator where
  current : pointer
  deriving DecidableEq, Repr

/-- Source: `reverse_iterator::operator*`: the position before `current` (`*--tmp`). -/
def reverse_iterator.position (r : reverse_iterator) : pointer := r.current - 1

/-- Source: `reverse_iterator::operator++`: steps `current` backwards (`--current`). -/
def reverse_iterator.next (r : reverse_iterator) : reverse_iterator :=
  { current := r.current - 1 }

/-- Reverse traversal by a caller, `for (r = rfirst; r != rlast; ++r) visit(*r)`,
where two reverse iterators are equal when their `current` members are. -/
def for_each_reverse {T : Type} (m : Memory T) :
    Nat → reverse_iterator → reverse_iterator → Outcome (List (pointer × T))
  | 0, _, _ => .out_of_fuel
  | fuel + 1, r, rlast =>
    if r.current != rlast.current then
      (load m r.position).bind fun v =>
        (for_each_reverse m fuel r.next rlast).map fun rest => (r.position, v) :: rest
    else .ok []

/-- The value read by `view[index]` through the const overload. -/
def span.read_const {T : Type} (m : Memory T) (assert_enabled : Bool) (self : span)
    (index : index_type) : Outcome T :=
  (self.subscript_const assert_enabled index).bind (load m)

/-- The value read by `view[index]` through the mutable overload. -/
def span.read_mut {T : Type} (m : Memory T) (assert_enabled : Bool) (self : span)
    (index : index_type) : Outcome T :=
  (self.subscript_mut assert_enabled index).bind (load m)

/-- The storage block `xs` lives in memory at addresses `base, base + 1, ...`. -/
def holds {T : Type} (m : Memory T) (base : pointer) (xs : List T) : Prop :=
  ∀ i : Nat, i < xs.length → m (base + i) = xs[i]?

/-- Validity of a view: each of its `size_` positions holds an element. -/
def span.valid {T : Type} (m : Memory T) (self : span) : Prop :=
  ∀ i : Nat, i < self.size_ → (m (self.data_ + i)).isSome = true

instance {T : Type} [DecidableEq T] (m : Memory T) (base : pointer) (xs : List T) :
    Decidable (holds m base xs) := by
  unfold holds; infer_instance

instance {T : Type} (m : Memory T) (self : span) : Decidable (span.valid m self) := by
  unfold span.valid; infer_instance

/-- The block `[10, 20, 30, 40, 50]` at address 100. -/
def mem5 : Memory Nat := Memory.empty.place 100 [10, 20, 30, 40, 50]

/-- Separately allocated blocks: `[1, 2, 3]` at 10, `[1, 2, 3]` at 20, `[1, 2]` at 30. -/
def mem3 : Memory Nat :=
  ((Memory.empty.place 10 [1, 2, 3]).place 20 [1, 2, 3]).place 30 [1, 2]

/-- Equality of the element type `Nat`. -/
def nat_eq (a b : Nat) : Bool := a == b

/-- An element type whose equality is not reflexive: `nan` compares unequal to
everything, itself included (as a floating-point NaN does under `operator==`). -/
inductive Sample where
  | num (n : Nat)
  | nan
  deriving DecidableEq, Repr

/-- The `operator==` of `Sample`. -/
def Sample.eq : Sample → Sample → Bool
  | .num a, .num b => a == b
  | _, _ => false

/-- The one-element block `[nan]` at address 100. -/
def mem_nan : Memory Sample := Memory.empty.place 100 [Sample.nan]

/-- Memory `m` with the element at address `p` replaced by `v`. -/
def Memory.update {T : Type} (m : Memory T) (p : pointer) (v : T) : Memory T :=
  fun q => if q = p then some v else m q

/-- Writing through a reference (`*p = v`): undefined when nothing lives at `p`. -/
def store {T : Type} (m : Memory T) (p : pointer) (v : T) : Outcome (Memory T) :=
  match m p with
  | some _ => .ok (m.update p v)
  | none => .undefined

/-- Program state around a call on a view: the memory and the view object. -/
structure State (T : Type) where
  mem : Memory T
  view : span

/-- The statement `view[index] = value;` through the mutable `operator[]`: the
overload returns the reference and the assignment stores through it; the body of the
overload assigns neither `data_` nor `size_`. -/
def span.write_mut {T : Type} (m : Memory T) (assert_enabled : Bool) (self : span)
    (index : index_type) (value : T) : Outcome (State T) :=
  (self.subscript_mut assert_enabled index).bind fun r =>
    (store m r value).bind fun m2 => .ok { mem := m2, view := self }

/-- The calls a program can make on a view. -/
inductive Call (T : Type) where
  | size
  | data_const
  | data_mut
  | begin_const
  | begin_mut
  | end_const
  | end_mut
  | subscript_const (index : index_type)
  | operator_eq (other : span)
  | operator_ne (other : span)
  | copy
  | assign (index : index_type) (value : T)

/-- What a call returns. -/
inductive Value (T : Type) where
  | index (n : index_type)
  | address (p : pointer)
  | element (x : T)
  | boolean (b : Bool)
  | view (s : span)
  | nothing
  deriving DecidableEq, Repr

/-- The calls that go through `const` members, the accessors and the copy
constructor: every call except the assignment through the mutable `operator[]`. -/
def Call.read_only {T : Type} : Call T → Bool
  | .assign _ _ => false
  | _ => true

/-- One call on the view of a state: its result and the state after it.  Only the
assignment through the mutable `operator[]` stores into memory; a failed call leaves
the state as it found it. -/
def Call.exec {T : Type} (eq : T → T → Bool) (fuel : Nat) (assert_enabled : Bool) :
    Call T → State T → Outcome (Value T) × State T
  | .size, s => (.ok (.index s.view.size), s)
  | .data_const, s => (.ok (.address s.view.data_const), s)
  | .data_mut, s => (.ok (.address s.view.data_mut), s)
  | .begin_const, s => (.ok (.address s.view.begin_const), s)
  | .begin_mut, s => (.ok (.address s.view.begin_mut), s)
  | .end_const, s => (.ok (.address s.view.end_const), s)
  | .end_mut, s => (.ok (.address s.view.end_mut), s)
  | .subscript_const i, s => ((s.view.read_const s.mem assert_enabled i).map .element, s)
  | .operator_eq other, s => ((s.view.operator_eq s.mem eq fuel other).result.map .boolean, s)
  | .operator_ne other, s => ((s.view.operator_ne s.mem eq fuel other).result.map .boolean, s)
  | .copy, s => (.ok (.view (span.span_copy s.view)), s)
  | .assign i x, s =>
    match s.view.write_mut s.mem assert_enabled i x with
    | .ok s2 => (.ok .nothing, s2)
    | .assertion_failure => (.assertion_failure, s)
    | .undefined => (.undefined, s)
    | .out_of_fuel => (.out_of_fuel, s)

/-- A sequence of calls, one after the other: the state after the last. -/
def run_calls {T : Type} (eq : T → T → Bool) (fuel : Nat) (assert_enabled : Bool) :
    List (Call T) → State T → State T
  | [], s => s
  | c :: cs, s => run_calls eq fuel assert_enabled cs (c.exec eq fuel assert_enabled s).2

/-- The one-element block `[num 1]` at address 100. -/
def mem_num : Memory Sample := Memory.empty.place 100 [Sample.num 1]

/-- Separately allocated, identical one-element blocks: `[nan]` at 100 and at 200. -/
def mem_nan2 : Memory Sample :=
  (Memory.empty.place 100 [Sample.nan]).place 200 [Sample.nan]

/-- Value of the integer `d` in the signed `w`-bit type `ptrdiff_t` (two's
complement wrap-around). -/
def to_differenc_type (w : Nat) (d : Int) : differenc_type :=
  if 2 * (d % (2 : Int) ^ w) < (2 : Int) ^ w then d % (2 : Int) ^ w
  else d % (2 : Int) ^ w - (2 : Int) ^ w

/-- The `w`-bit byte address held by a pointer whose element address is `p`, for
elements of `sz` bytes (`sz` is `sizeof(T)`). -/
def byte_address (w sz : Nat) (p : pointer) : Nat := (sz * p) % 2 ^ w

/-- Source: `begin() { return data_; }`, as the byte address the machine holds. -/
def span.begin_bytes (w sz : Nat) (self : span) : Nat := byte_address w sz self.data_

/-- Source: `end() { return data_ + size_; }`, computed as the machine does: the byte
address advanced by `sz * size_`, wrapping modulo `2 ^ w`. -/
def span.end_bytes (w sz : Nat) (self : span) : Nat :=
  (byte_address w sz self.data_ + sz * self.size_) % 2 ^ w

/-- The standard `std::distance(first, last)` on `w`-bit pointers: the byte difference
as a `ptrdiff_t`, divided by the element size (the difference of two pointers into
one array is a multiple of it). -/
def distance_bytes (w sz : Nat) (first last : Nat) : differenc_type :=
  to_differenc_type w ((last : Int) - (first : Int)) / (sz : Int)

/-! ## Auxiliary facts -/

theorem load_of_some {T : Type} {m : Memory T} {p : pointer} {v : T} (h : m p = some v) :
    load m p = .ok v := by
  simp [load, h]

theorem holds_get {T : Type} {m : Memory T} {base : pointer} {xs : List T}
    (hm : holds m base xs) (k : Nat) (hk : k < xs.length) :
    m (base + k) = some (xs.get ⟨k, hk⟩) := by
  rw [hm k hk]
  simp [List.getElem?_eq_getElem hk]

theorem valid_of_holds {T : Type} {m : Memory T} {base : pointer} {xs : List T}
    (hm : holds m base xs) (b n : Nat) (hbn : b + n ≤ xs.length) :
    span.valid m (span.span_count (base + b) n) := by
  intro i hi
  have hi2 : i < n := hi
  have hk : b + i < xs.length := by omega
  have := holds_get hm (b + i) hk
  simp only [span.span_count]
  rw [Nat.add_assoc, this]
  rfl

/-- With enough fuel, `std::equal` over two ranges of `n` live elements stops with a
Boolean, which is `true` exactly when all `n` pairs compare equal. -/
theorem std_equal_result {T : Type} (m : Memory T) (eq : T → T → Bool) :
    ∀ (n fuel : Nat) (p q : Nat), n < fuel →
      (∀ i, i < n → (m (p + i)).isSome = true) →
      (∀ i, i < n → (m (q + i)).isSome = true) →
      ∃ b, (std_equal m eq fuel p (p + n) q).result = .ok b ∧
        (b = true ↔ ∀ i, i < n →
          ∃ x y, m (p + i) = some x ∧ m (q + i) = some y ∧ eq x y = true) := by
  intro n
  induction n with
  | zero =>
    intro fuel p q hf _ _
    obtain ⟨f, rfl⟩ : ∃ f, fuel = f + 1 := ⟨fuel - 1, by omega⟩
    refine ⟨true, ?_, by simp⟩
    simp [std_equal]
  | succ n ih =>
    intro fuel p q hf hp hq
    obtain ⟨f, rfl⟩ : ∃ f, fuel = f + 1 := ⟨fuel - 1, by omega⟩
    have hp0 := hp 0 (by omega)
    have hq0 := hq 0 (by omega)
    obtain ⟨a, ha⟩ := Option.isSome_iff_exists.mp hp0
    obtain ⟨c, hc⟩ := Option.isSome_iff_exists.mp hq0
    simp only [Nat.add_zero] at ha hc
    have hne : (p != p + (n + 1)) = true := by simp
    have hshift : p + 1 + n = p + (n + 1) := by omega
    by_cases hac : eq a c = true
    · obtain ⟨b, hb, hiff⟩ := ih f (p + 1) (q + 1) (by omega)
        (fun i hi => by have := hp (i + 1) (by omega); rwa [show p + 1 + i = p + (i + 1) by omega])
        (fun i hi => by have := hq (i + 1) (by omega); rwa [show q + 1 + i = q + (i + 1) by omega])
      refine ⟨b, ?_, ?_⟩
      · rw [hshift] at hb
        simp [std_equal, ha, hc, hac, hb]
      · rw [hiff]
        constructor
        · intro h i hi
          cases i with
          | zero => exact ⟨a, c, by simpa using ha, by simpa using hc, hac⟩
          | succ j =>
            have := h j (by omega)
            rwa [show p + 1 + j = p + (j + 1) by omega,
              show q + 1 + j = q + (j + 1) by omega] at this
        · intro h i hi
          have := h (i + 1) (by omega)
          rwa [show p + (i + 1) = p + 1 + i by omega,
            show q + (i + 1) = q + 1 + i by omega] at this
    · refine ⟨false, ?_, ?_⟩
      · simp [std_equal, ha, hc, hac]
      · constructor
        · intro h; cases h
        · intro h
          obtain ⟨x, y, hx, hy, hxy⟩ := h 0 (by omega)
          simp only [Nat.add_zero] at hx hy
          rw [ha] at hx; rw [hc] at hy
          cases hx; cases hy
          exact absurd hxy hac

/-- Reads of `std::equal`: the first `k` positions of both ranges, pairwise, in order,
for some `k` not above the length `n` of the first range. -/
theorem std_equal_reads {T : Type} (m : Memory T) (eq : T → T → Bool) :
    ∀ (fuel n : Nat) (p q : Nat),
      ∃ k, k ≤ n ∧ (std_equal m eq fuel p (p + n) q).reads
        = (List.range k).flatMap (fun i => [p + i, q + i]) := by
  intro fuel
  induction fuel with
  | zero => intro n p q; exact ⟨0, by omega, by simp [std_equal]⟩
  | succ f ih =>
    intro n p q
    cases n with
    | zero => exact ⟨0, by omega, by simp [std_equal]⟩
    | succ n =>
      have hne : (p != p + (n + 1)) = true := by simp
      have hshift : p + 1 + n = p + (n + 1) := by omega
      have one : (List.range 1).flatMap (fun i => [p + i, q + i]) = [p, q] := by
        simp [List.range_succ_eq_map]
      cases ha : m p with
      | none => exact ⟨1, by omega, by rw [one]; simp [std_equal, ha]⟩
      | some a =>
        cases hc : m q with
        | none => exact ⟨1, by omega, by rw [one]; simp [std_equal, ha, hc]⟩
        | some c =>
          by_cases hac : eq a c = true
          · obtain ⟨k, hk, hreads⟩ := ih n (p + 1) (q + 1)
            refine ⟨k + 1, by omega, ?_⟩
            rw [hshift] at hreads
            simp only [std_equal, hne, ha, hc, hac, if_true, hreads]
            rw [List.range_succ_eq_map]
            simp [List.flatMap, List.map_map, Function.comp_def, Nat.succ_eq_add_one,
              Nat.add_assoc, Nat.add_comm 1]
          · exact ⟨1, by omega, by rw [one]; simp [std_equal, ha, hc, hac]⟩

theorem load_eq_ok_iff {T : Type} (m : Memory T) (p : Nat) (v : T) :
    load m p = .ok v ↔ m p = some v := by
  unfold load
  cases h : m p with
  | none => simp
  | some w => simp

theorem subscript_const_in_range (assert_enabled : Bool) (s : span) (i : Nat)
    (hi : i < s.size_) : s.subscript_const assert_enabled i = .ok (s.data_ + i) := by
  simp [span.subscript_const, assert, hi, Outcome.bind]

theorem subscript_mut_in_range (assert_enabled : Bool) (s : span) (i : Nat)
    (hi : i < s.size_) : s.subscript_mut assert_enabled i = .ok (s.data_ + i) := by
  simp [span.subscript_mut, assert, hi, Outcome.bind]

theorem read_const_in_range {T : Type} (m : Memory T) (assert_enabled : Bool) (s : span)
    (i : Nat) (hi : i < s.size_) :
    s.read_const m assert_enabled i = load m (s.data_ + i) := by
  simp [span.read_const, subscript_const_in_range assert_enabled s i hi, Outcome.bind]

theorem read_mut_in_range {T : Type} (m : Memory T) (assert_enabled : Bool) (s : span)
    (i : Nat) (hi : i < s.size_) :
    s.read_mut m assert_enabled i = load m (s.data_ + i) := by
  simp [span.read_mut, subscript_mut_in_range assert_enabled s i hi, Outcome.bind]

/-! ## Indexed access -/

/-- C1: for a storage block `xs` living at `base`, a view over it at offset `b` with
count `n` (`b + n` within the storage) and an index `i < n`, both overloads of
`operator[]` return a reference to address `base + (b + i)`, and reading through that
reference yields the storage element `xs[b + i]`. -/
theorem subscript_yields_storage_element {T : Type} (m : Memory T) (base : Nat)
    (xs : List T) (b n i : Nat) (assert_enabled : Bool)
    (hm : holds m base xs) (hbn : b + n ≤ xs.length) (hi : i < n) :
    span.subscript_const assert_enabled (span.span_count (base + b) n) i
      = .ok (base + (b + i)) ∧
    span.subscript_mut assert_enabled (span.span_count (base + b) n) i
      = .ok (base + (b + i)) ∧
    span.read_const m assert_enabled (span.span_count (base + b) n) i
      = .ok (xs.get ⟨b + i, by omega⟩) ∧
    span.read_mut m assert_enabled (span.span_count (base + b) n) i
      = .ok (xs.get ⟨b + i, by omega⟩) := by
  have hk : b + i < xs.length := by omega
  have hload : load m (base + b + i) = .ok (xs.get ⟨b + i, hk⟩) := by
    rw [Nat.add_assoc]
    exact load_of_some (holds_get hm (b + i) hk)
  have hin : i < (span.span_count (base + b) n).size_ := hi
  refine ⟨?_, ?_, ?_, ?_⟩
  · rw [subscript_const_in_range _ _ _ hin, ← Nat.add_assoc]; rfl
  · rw [subscript_mut_in_range _ _ _ hin, ← Nat.add_assoc]; rfl
  · rw [read_const_in_range _ _ _ _ hin]; exact hload
  · rw [read_mut_in_range _ _ _ _ hin]; exact hload

/-- Scenario 1 of C1: over `[10, 20, 30, 40, 50]`, `view[4]` is `50` and `view[0]` is `10`. -/
theorem subscript_yields_storage_element_witness :
    holds mem5 100 [10, 20, 30, 40, 50] ∧ 0 + 5 ≤ [10, 20, 30, 40, 50].length ∧ 4 < 5 ∧
    span.read_const mem5 true (span.span_count (100 + 0) 5) 4 = .ok 50 ∧
    span.read_mut mem5 true (span.span_count (100 + 0) 5) 0 = .ok 10 :=
  ⟨by decide, by decide, by decide,
    (subscript_yields_storage_element mem5 100 [10, 20, 30, 40, 50] 0 5 4 true
      (by decide) (by decide) (by decide)).2.2.1,
    (subscript_yields_storage_element mem5 100 [10, 20, 30, 40, 50] 0 5 0 true
      (by decide) (by decide) (by decide)).2.2.2⟩

/-- C3: with the bounds assertion enabled, both overloads of `operator[]` on a view
of size `n` return the reference `data_ + index` when `index < n` and stop with an
assertion failure otherwise; so they fail exactly when `index >= n`, and they fail at
every index on a default-constructed view and on any view of size zero. -/
theorem subscript_fails_iff_out_of_range (v : span) (index : Nat) (p : Nat) :
    v.subscript_const true index
      = (if index < v.size then .ok (v.data_ + index) else .assertion_failure) ∧
    v.subscript_mut true index
      = (if index < v.size then .ok (v.data_ + index) else .assertion_failure) ∧
    (v.subscript_const true index = .assertion_failure ↔ v.size ≤ index) ∧
    (v.subscript_mut true index = .assertion_failure ↔ v.size ≤ index) ∧
    span.span_default.subscript_const true index = .assertion_failure ∧
    span.span_default.subscript_mut true index = .assertion_failure ∧
    (span.span_count p 0).subscript_const true index = .assertion_failure ∧
    (span.span_count p 0).subscript_mut true index = .assertion_failure := by
  have hsize : v.size = v.size_ := rfl
  refine ⟨?_, ?_, ?_, ?_, ?_, ?_, ?_, ?_⟩
  · by_cases h : index < v.size_ <;>
      simp [span.subscript_const, assert, Outcome.bind, hsize, h]
  · by_cases h : index < v.size_ <;>
      simp [span.subscript_mut, assert, Outcome.bind, hsize, h]
  · by_cases h : index < v.size_
    · simp [span.subscript_const, assert, Outcome.bind, hsize, h]
    · simp [span.subscript_const, assert, Outcome.bind, hsize, h]; exact Nat.le_of_not_lt h
  · by_cases h : index < v.size_
    · simp [span.subscript_mut, assert, Outcome.bind, hsize, h]
    · simp [span.subscript_mut, assert, Outcome.bind, hsize, h]; exact Nat.le_of_not_lt h
  · simp [span.subscript_const, span.span_default, assert, Outcome.bind]
  · simp [span.subscript_mut, span.span_default, assert, Outcome.bind]
  · simp [span.subscript_const, span.span_count, assert, Outcome.bind]
  · simp [span.subscript_mut, span.span_count, assert, Outcome.bind]

/-! ## Construction -/

/-- C4: the view built by `span(p, n)` stores both arguments verbatim: `size()` is
exactly `n` and `data()` (either overload) is exactly `p`, for every `p` and `n`. -/
theorem span_count_stores_verbatim (p n : Nat) :
    (span.span_count p n).size = n ∧
    (span.span_count p n).data_const = p ∧
    (span.span_count p n).data_mut = p ∧
    span.span_count p n = { data_ := p, size_ := n } :=
  ⟨rfl, rfl, rfl, rfl⟩

/-! ## Equality -/

/-- With enough fuel, `operator==` between valid views of equal size returns the
Boolean computed by `std::equal`. -/
theorem operator_eq_result {T : Type} (m : Memory T) (eq : T → T → Bool)
    (fuel : Nat) (A B : span) (hA : A.valid m) (hB : B.valid m) (hfuel : A.size_ < fuel)
    (hs : A.size_ = B.size_) :
    ∃ b, (A.operator_eq m eq fuel B).result = .ok b ∧
      (b = true ↔ ∀ i : Nat, i < A.size_ →
        ∃ x y, m (A.data_ + i) = some x ∧ m (B.data_ + i) = some y ∧ eq x y = true) := by
  obtain ⟨b, hb, hiff⟩ := std_equal_result m eq A.size_ fuel A.data_ B.data_ hfuel hA
    (fun i hi => hB i (hs ▸ hi))
  refine ⟨b, ?_, hiff⟩
  simp only [span.operator_eq, hs, beq_self_eq_true, if_true]
  exact hb

theorem operator_eq_sizes_differ {T : Type} (m : Memory T) (eq : T → T → Bool)
    (fuel : Nat) (A B : span) (hs : A.size_ ≠ B.size_) :
    A.operator_eq m eq fuel B = { result := .ok false, reads := [] } := by
  simp [span.operator_eq, hs]

/-- Views of the whole of two blocks with the same contents compare equal when each
element of the contents is equal to itself. -/
theorem operator_eq_identical_blocks {T : Type} (m : Memory T) (eq : T → T → Bool)
    (fuel : Nat) (xs : List T) (a b : Nat) (ha : holds m a xs) (hb : holds m b xs)
    (hrefl : ∀ x ∈ xs, eq x x = true) (hfuel : xs.length < fuel) :
    ((span.span_count a xs.length).operator_eq m eq fuel
      (span.span_count b xs.length)).result = .ok true := by
  have hva : span.valid m (span.span_count a xs.length) :=
    valid_of_holds ha 0 xs.length (by omega)
  have hvb : span.valid m (span.span_count b xs.length) :=
    valid_of_holds hb 0 xs.length (by omega)
  obtain ⟨r, hrun, hiff⟩ := operator_eq_result m eq fuel (span.span_count a xs.length)
    (span.span_count b xs.length) hva hvb hfuel rfl
  have hrt : r = true := by
    refine hiff.mpr (fun i hi => ?_)
    have hi2 : i < xs.length := hi
    exact ⟨xs.get ⟨i, hi2⟩, xs.get ⟨i, hi2⟩, holds_get ha i hi2, holds_get hb i hi2,
      hrefl _ (List.get_mem xs i hi2)⟩
  rw [hrun, hrt]

/-- C2 as stated fails in its last-but-one clause: the separately allocated blocks
`[nan]` at 100 and `[nan]` at 200 are element-wise identical, the views over them are
valid and of equal size, yet `==` between them returns `false`, and never `true`
whatever the fuel. -/
theorem identical_nan_blocks_compare_unequal :
    holds mem_nan2 100 [Sample.nan] ∧ holds mem_nan2 200 [Sample.nan] ∧
    mem_nan2 100 = mem_nan2 200 ∧
    span.valid mem_nan2 (span.span_count 100 1) ∧
    span.valid mem_nan2 (span.span_count 200 1) ∧
    ((span.span_count 100 1).operator_eq mem_nan2 Sample.eq 2
      (span.span_count 200 1)).result = .ok false ∧
    (∀ fuel : Nat, ((span.span_count 100 1).operator_eq mem_nan2 Sample.eq fuel
      (span.span_count 200 1)).result ≠ .ok true) := by
  refine ⟨by decide, by decide, by decide, by decide, by decide, by decide, ?_⟩
  intro fuel
  cases fuel with
  | zero => decide
  | succ f =>
    have hrun : ((span.span_count 100 1).operator_eq mem_nan2 Sample.eq (f + 1)
        (span.span_count 200 1)).result = .ok false := by
      simp [span.operator_eq, span.span_count, span.begin_const, span.end_const,
        std_equal, mem_nan2, Memory.place, Memory.empty, Sample.eq]
    rw [hrun]
    intro h
    cases h

/-- C2, amended: for valid views `A` and `B` (anywhere in memory) and fuel above the
size, `A == B` returns a Boolean, and it returns `true` if and only if the sizes are
equal and at every index `i < A.size()` the elements `A[i]` and `B[i]` compare equal
under the element type's equality; views of different sizes compare unequal; and the
views over two blocks with the same contents `xs`, allocated at any addresses `a` and
`b`, are equal when every element of `xs` is equal to itself under that equality. -/
theorem operator_eq_iff_sizes_and_elements {T : Type} (m : Memory T) (eq : T → T → Bool)
    (fuel : Nat) (A B : span) (xs : List T) (a b : Nat)
    (hA : A.valid m) (hB : B.valid m) (hfuel : A.size < fuel) :
    (∃ r, (A.operator_eq m eq fuel B).result = .ok r) ∧
    ((A.operator_eq m eq fuel B).result = .ok true ↔
      A.size = B.size ∧ ∀ i : Nat, i < A.size →
        ∃ x y, A.read_const m true i = .ok x ∧ B.read_const m true i = .ok y ∧
          eq x y = true) ∧
    (A.size = B.size ∨ (A.operator_eq m eq fuel B).result = .ok false) ∧
    (holds m a xs → holds m b xs → (∀ x ∈ xs, eq x x = true) → xs.length < fuel →
      ((span.span_count a xs.length).operator_eq m eq fuel
        (span.span_count b xs.length)).result = .ok true) := by
  have hblocks := operator_eq_identical_blocks m eq fuel xs a b
  by_cases hs : A.size_ = B.size_
  · obtain ⟨r, hrun, hiff⟩ := operator_eq_result m eq fuel A B hA hB hfuel hs
    refine ⟨⟨r, hrun⟩, ?_, Or.inl hs, hblocks⟩
    rw [hrun]
    constructor
    · intro h
      have hbt : r = true := by injection h
      refine ⟨hs, fun i hi => ?_⟩
      obtain ⟨x, y, hx, hy, hxy⟩ := (hiff.mp hbt) i hi
      refine ⟨x, y, ?_, ?_, hxy⟩
      · rw [read_const_in_range m true A i hi]; exact load_of_some hx
      · rw [read_const_in_range m true B i (hs ▸ hi)]; exact load_of_some hy
    · rintro ⟨_, h⟩
      have hbt : r = true := by
        refine hiff.mpr (fun i hi => ?_)
        obtain ⟨x, y, hx, hy, hxy⟩ := h i hi
        rw [read_const_in_range m true A i hi] at hx
        rw [read_const_in_range m true B i (hs ▸ hi)] at hy
        exact ⟨x, y, (load_eq_ok_iff m _ x).mp hx, (load_eq_ok_iff m _ y).mp hy, hxy⟩
      rw [hbt]
  · have hrun : (A.operator_eq m eq fuel B).result = .ok false := by
      rw [operator_eq_sizes_differ m eq fuel A B hs]
    refine ⟨⟨false, hrun⟩, ?_, Or.inr hrun, hblocks⟩
    rw [hrun]
    constructor
    · intro h; cases h
    · rintro ⟨h, _⟩; exact absurd h hs

/-- Scenario 3 of C2: views over the separately allocated blocks `[1, 2, 3]` at 10 and
`[1, 2, 3]` at 20 are valid, the equivalence of C2 holds for them, and since every
element of `[1, 2, 3]` is equal to itself, `viewA == viewB` is `true`. -/
theorem operator_eq_iff_sizes_and_elements_witness :
    span.valid mem3 (span.span_count 10 3) ∧ span.valid mem3 (span.span_count 20 3) ∧
    (span.span_count 10 3).size < 4 ∧
    holds mem3 10 [1, 2, 3] ∧ holds mem3 20 [1, 2, 3] ∧
    (∀ x ∈ [1, 2, 3], nat_eq x x = true) ∧
    (span.operator_eq mem3 nat_eq 4 (span.span_count 10 [1, 2, 3].length)
      (span.span_count 20 [1, 2, 3].length)).result = .ok true ∧
    ((span.operator_eq mem3 nat_eq 4 (span.span_count 10 3) (span.span_count 20 3)).result
        = .ok true ↔
      (span.span_count 10 3).size = (span.span_count 20 3).size ∧
      ∀ i : Nat, i < (span.span_count 10 3).size →
        ∃ x y, (span.span_count 10 3).read_const mem3 true i = .ok x ∧
          (span.span_count 20 3).read_const mem3 true i = .ok y ∧ nat_eq x y = true) :=
  have hrefl : ∀ x ∈ [1, 2, 3], nat_eq x x = true := by
    intro x _; simp [nat_eq]
  have h := operator_eq_iff_sizes_and_elements mem3 nat_eq 4 (span.span_count 10 3)
    (span.span_count 20 3) [1, 2, 3] 10 20 (by decide) (by decide) (by decide)
  ⟨by decide, by decide, by decide, by decide, by decide, hrefl,
    h.2.2.2 (by decide) (by decide) hrefl (by decide), h.2.1⟩

/-- C9: `A != B` is the logical negation of `A == B`: it fails exactly as `A == B`
fails, returns `!b` when `A == B` returns `b`, and reads the same addresses; and the
view over `[1, 2, 3]` is `!=` to the view over `[1, 2]`. -/
theorem operator_ne_is_negation {T : Type} (m : Memory T) (eq : T → T → Bool)
    (fuel : Nat) (A B : span) :
    (A.operator_ne m eq fuel B).result
      = (A.operator_eq m eq fuel B).result.map (fun b => !b) ∧
    ((A.operator_ne m eq fuel B).result = .ok true ↔
      (A.operator_eq m eq fuel B).result = .ok false) ∧
    ((A.operator_ne m eq fuel B).result = .ok false ↔
      (A.operator_eq m eq fuel B).result = .ok true) ∧
    (A.operator_ne m eq fuel B).reads = (A.operator_eq m eq fuel B).reads ∧
    (span.operator_ne mem3 nat_eq fuel (span.span_count 10 3) (span.span_count 30 2)).result
      = .ok true := by
  refine ⟨rfl, ?_, ?_, rfl, ?_⟩
  · simp only [span.operator_ne]
    cases h : (A.operator_eq m eq fuel B).result with
    | ok b => cases b <;> simp [Outcome.map]
    | assertion_failure => simp [Outcome.map]
    | undefined => simp [Outcome.map]
    | out_of_fuel => simp [Outcome.map]
  · simp only [span.operator_ne]
    cases h : (A.operator_eq m eq fuel B).result with
    | ok b => cases b <;> simp [Outcome.map]
    | assertion_failure => simp [Outcome.map]
    | undefined => simp [Outcome.map]
    | out_of_fuel => simp [Outcome.map]
  · have hs : (span.span_count 10 3).size_ ≠ (span.span_count 30 2).size_ := by decide
    simp only [span.operator_ne, operator_eq_sizes_differ mem3 nat_eq fuel _ _ hs]
    rfl

/-- C10: apart from `operator[]`, nothing fails.  The constructors, `size()`, `data()`,
`begin()` and `end()` are total; and for valid views `A`, `B` of any sizes, with fuel
above the size, `A == B` and `A != B` return a Boolean, having read exactly the first
`k` elements of each view pairwise for some `k` within both sizes (`k = 0` when the
sizes differ), so every address read lies inside one of the two views. -/
theorem equality_never_fails_nor_reads_outside {T : Type} (m : Memory T)
    (eq : T → T → Bool) (fuel : Nat) (A B : span) (w first last ptr count : Nat)
    (hA : A.valid m) (hB : B.valid m) (hfuel : A.size < fuel) :
    (∃ v : span, span.span_default = v) ∧
    (∃ v : span, span.span_count ptr count = v) ∧
    (∃ v : span, span.span_range w first last = v) ∧
    (∃ v : span, span.span_copy A = v) ∧
    (∃ n : Nat, A.size = n) ∧
    (∃ p : Nat, A.data_const = p ∧ A.data_mut = p) ∧
    (∃ p : Nat, A.begin_const = p ∧ A.begin_mut = p) ∧
    (∃ p : Nat, A.end_const = p ∧ A.end_mut = p) ∧
    (∃ b, (A.operator_eq m eq fuel B).result = .ok b) ∧
    (∃ b, (A.operator_ne m eq fuel B).result = .ok b) ∧
    (∃ k : Nat, k ≤ A.size ∧ k ≤ B.size ∧
      (A.operator_eq m eq fuel B).reads
        = (List.range k).flatMap (fun i => [A.data_const + i, B.data_const + i]) ∧
      (A.operator_ne m eq fuel B).reads
        = (List.range k).flatMap (fun i => [A.data_const + i, B.data_const + i])) ∧
    (∀ a : Nat, a ∈ (A.operator_eq m eq fuel B).reads →
      (A.data_const ≤ a ∧ a < A.data_const + A.size) ∨
      (B.data_const ≤ a ∧ a < B.data_const + B.size)) := by
  have hres : ∃ b, (A.operator_eq m eq fuel B).result = .ok b := by
    by_cases hs : A.size_ = B.size_
    · obtain ⟨b, hrun, _⟩ := operator_eq_result m eq fuel A B hA hB hfuel hs
      exact ⟨b, hrun⟩
    · exact ⟨false, by rw [operator_eq_sizes_differ m eq fuel A B hs]⟩
  have hreads : ∃ k : Nat, k ≤ A.size_ ∧ k ≤ B.size_ ∧
      (A.operator_eq m eq fuel B).reads
        = (List.range k).flatMap (fun i => [A.data_ + i, B.data_ + i]) := by
    by_cases hs : A.size_ = B.size_
    · obtain ⟨k, hk, hr⟩ := std_equal_reads m eq fuel A.size_ A.data_ B.data_
      refine ⟨k, hk, hs ▸ hk, ?_⟩
      simp only [span.operator_eq, hs, beq_self_eq_true, if_true]
      exact hr
    · exact ⟨0, Nat.zero_le _, Nat.zero_le _,
        by rw [operator_eq_sizes_differ m eq fuel A B hs]; rfl⟩
  obtain ⟨b, hb⟩ := hres
  obtain ⟨k, hkA, hkB, hr⟩ := hreads
  refine ⟨⟨_, rfl⟩, ⟨_, rfl⟩, ⟨_, rfl⟩, ⟨_, rfl⟩, ⟨_, rfl⟩, ⟨_, rfl, rfl⟩, ⟨_, rfl, rfl⟩,
    ⟨_, rfl, rfl⟩, ⟨b, hb⟩, ⟨!b, ?_⟩, ⟨k, hkA, hkB, hr, hr⟩, ?_⟩
  · simp [span.operator_ne, hb, Outcome.map]
  · intro a ha
    rw [hr] at ha
    simp only [List.mem_flatMap, List.mem_range, List.mem_cons, List.mem_singleton,
      List.not_mem_nil, or_false] at ha
    obtain ⟨i, hi, hai⟩ := ha
    have hiA : i < A.size_ := Nat.lt_of_lt_of_le hi hkA
    have hiB : i < B.size_ := Nat.lt_of_lt_of_le hi hkB
    show (A.data_ ≤ a ∧ a < A.data_ + A.size_) ∨ (B.data_ ≤ a ∧ a < B.data_ + B.size_)
    rcases hai with h | h
    · left; subst h; exact ⟨Nat.le_add_right _ _, Nat.add_lt_add_left hiA _⟩
    · right; subst h; exact ⟨Nat.le_add_right _ _, Nat.add_lt_add_left hiB _⟩

/-- C10 at the views over `[1, 2, 3]` (at 10) and `[1, 2]` (at 30): `==` returns
`false` and reads nothing; over the two `[1, 2, 3]` blocks it reads three pairs. -/
theorem equality_never_fails_nor_reads_outside_witness :
    span.valid mem3 (span.span_count 10 3) ∧ span.valid mem3 (span.span_count 30 2) ∧
    (span.span_count 10 3).size < 4 ∧
    span.operator_eq mem3 nat_eq 4 (span.span_count 10 3) (span.span_count 30 2)
      = { result := .ok false, reads := [] } ∧
    span.operator_eq mem3 nat_eq 4 (span.span_count 10 3) (span.span_count 20 3)
      = { result := .ok true, reads := [10, 20, 11, 21, 12, 22] } ∧
    (∃ b, (span.operator_ne mem3 nat_eq 4 (span.span_count 10 3)
      (span.span_count 30 2)).result = .ok b) :=
  ⟨by decide, by decide, by decide, by decide, by decide,
    (equality_never_fails_nor_reads_outside mem3 nat_eq 4 (span.span_count 10 3)
      (span.span_count 30 2) 64 10 13 10 3 (by decide) (by decide) (by decide)).2.2.2.2.2.2.2.2.2.1⟩

/-! ## Pointer-pair construction -/

theorem to_index_type_ptr_diff (w first last : Nat) (hle : first ≤ last)
    (hw : last - first < 2 ^ w) :
    to_index_type w (ptr_diff last first) = last - first := by
  unfold to_index_type ptr_diff
  rw [← Int.ofNat_sub hle]
  have hlt : ((last - first : Nat) : Int) < (2 : Int) ^ w := by exact_mod_cast hw
  rw [Int.emod_eq_of_lt (Int.ofNat_nonneg _) hlt]
  exact Int.toNat_ofNat _

theorem to_index_type_ptr_diff_reversed (w first last : Nat) (hlt : last < first)
    (hw : first - last ≤ 2 ^ w) :
    to_index_type w (ptr_diff last first) = (2 ^ w - (first - last)) % 2 ^ w := by
  unfold to_index_type ptr_diff
  have hpos : (0 : Int) < (2 : Int) ^ w := by positivity
  have hcast : ((2 ^ w - (first - last) : Nat) : Int)
      = (2 : Int) ^ w - ((first : Int) - (last : Int)) := by
    rw [Int.ofNat_sub hw, Int.ofNat_sub (Nat.le_of_lt hlt)]
    push_cast
    rfl
  have hmod : ((last : Int) - (first : Int)) % (2 : Int) ^ w
      = (((2 ^ w - (first - last)) % 2 ^ w : Nat) : Int) := by
    rw [Int.natCast_mod, hcast]
    push_cast
    rw [show (2 : Int) ^ w - ((first : Int) - (last : Int))
        = ((last : Int) - (first : Int)) + (2 : Int) ^ w by ring]
    rw [Int.add_emod_self]
  rw [hmod]
  exact Int.toNat_ofNat _

/-- A valid view compares equal to itself when the element equality is reflexive. -/
theorem operator_eq_self {T : Type} (m : Memory T) (eq : T → T → Bool) (fuel : Nat)
    (v : span) (hv : v.valid m) (hrefl : ∀ x, eq x x = true) (hfuel : v.size_ < fuel) :
    (v.operator_eq m eq fuel v).result = .ok true := by
  obtain ⟨b, hrun, hiff⟩ := operator_eq_result m eq fuel v v hv hv hfuel rfl
  have hbt : b = true := by
    refine hiff.mpr (fun i hi => ?_)
    obtain ⟨x, hx⟩ := Option.isSome_iff_exists.mp (hv i hi)
    exact ⟨x, x, hx, hx, hrefl x⟩
  rw [hrun, hbt]

/-- A valid view compares equal to itself when each element it views is equal to
itself under the element equality. -/
theorem operator_eq_self_local {T : Type} (m : Memory T) (eq : T → T → Bool) (fuel : Nat)
    (v : span) (hv : v.valid m)
    (hrefl : ∀ i : Nat, i < v.size_ → ∀ x, v.read_const m true i = .ok x → eq x x = true)
    (hfuel : v.size_ < fuel) :
    (v.operator_eq m eq fuel v).result = .ok true := by
  obtain ⟨b, hrun, hiff⟩ := operator_eq_result m eq fuel v v hv hv hfuel rfl
  have hbt : b = true := by
    refine hiff.mpr (fun i hi => ?_)
    obtain ⟨x, hx⟩ := Option.isSome_iff_exists.mp (hv i hi)
    refine ⟨x, x, hx, hx, hrefl i hi x ?_⟩
    rw [read_const_in_range m true v i hi]
    exact load_of_some hx
  rw [hrun, hbt]

/-- C5 as stated fails: over a one-element block whose element is not equal to
itself, `span(first, last)` and `span(first, last - first)` are the same valid view,
yet `==` between them returns `false`, and never `true` whatever the fuel. -/
theorem span_range_eq_false_on_irreflexive_element :
    100 ≤ 101 ∧ span.valid mem_nan (span.span_count 100 (101 - 100)) ∧
    span.span_range 64 100 101 = span.span_count 100 (101 - 100) ∧
    ((span.span_range 64 100 101).operator_eq mem_nan Sample.eq 2
      (span.span_count 100 (101 - 100))).result = .ok false ∧
    ∀ fuel : Nat, ((span.span_range 64 100 101).operator_eq mem_nan Sample.eq fuel
      (span.span_count 100 (101 - 100))).result ≠ .ok true := by
  have heq : span.span_range 64 100 101 = span.span_count 100 (101 - 100) := by
    unfold span.span_range
    rw [to_index_type_ptr_diff 64 100 101 (by decide) (by norm_num)]
  refine ⟨by decide, by decide, heq, ?_, ?_⟩
  · rw [heq]; decide
  · intro fuel
    rw [heq]
    cases fuel with
    | zero => decide
    | succ f =>
      have hrun : ((span.span_count 100 (101 - 100)).operator_eq mem_nan Sample.eq (f + 1)
          (span.span_count 100 (101 - 100))).result = .ok false := by
        simp [span.operator_eq, span.span_count, span.begin_const, span.end_const,
          std_equal, mem_nan, Memory.place, Memory.empty, Sample.eq]
      rw [hrun]
      intro h
      cases h

/-- C5, amended: for `first <= last` (with the distance representable in the `w`-bit
`size_t`, as it is for any two addresses of `w` bits), `span(first, last)` has
`size() == last - first` and `data() == first`; it is the very view built by
`span(first, last - first)`: the same at every index and interchangeable with it, and
`==` between the two returns `true` when the view is valid and the element type's
equality is reflexive on the viewed elements (each element read through the view is
equal to itself). -/
theorem span_range_eq_span_count {T : Type} (m : Memory T) (eq : T → T → Bool)
    (fuel : Nat) (assert_enabled : Bool) (w first last : Nat)
    (hle : first ≤ last) (hw : last - first < 2 ^ w) :
    (span.span_range w first last).size = last - first ∧
    (span.span_range w first last).data_const = first ∧
    (span.span_range w first last).data_mut = first ∧
    span.span_range w first last = span.span_count first (last - first) ∧
    (∀ i : Nat, (span.span_range w first last).read_const m assert_enabled i
      = (span.span_count first (last - first)).read_const m assert_enabled i) ∧
    (∀ i : Nat, (span.span_range w first last).read_mut m assert_enabled i
      = (span.span_count first (last - first)).read_mut m assert_enabled i) ∧
    (span.valid m (span.span_count first (last - first)) →
      (∀ i : Nat, i < last - first → ∀ x,
        (span.span_count first (last - first)).read_const m true i = .ok x →
          eq x x = true) →
      last - first < fuel →
      ((span.span_range w first last).operator_eq m eq fuel
        (span.span_count first (last - first))).result = .ok true) := by
  have heq : span.span_range w first last = span.span_count first (last - first) := by
    unfold span.span_range
    rw [to_index_type_ptr_diff w first last hle hw]
  refine ⟨?_, ?_, ?_, heq, ?_, ?_, ?_⟩
  · rw [heq]; rfl
  · rw [heq]; rfl
  · rw [heq]; rfl
  · intro i; rw [heq]
  · intro i; rw [heq]
  · intro hv hrefl hfuel
    rw [heq]
    exact operator_eq_self_local m eq fuel _ hv hrefl hfuel

/-- Scenario 2 of C5: over `[10, 20, 30, 40, 50]` at 100, `span(100, 105)` has size 5,
reads `50` at index 4 and is `==` to `span(100, 5)`. -/
theorem span_range_eq_span_count_witness :
    100 ≤ 105 ∧ 105 - 100 < 2 ^ 64 ∧
    (span.span_range 64 100 105).size = 5 ∧
    span.span_range 64 100 105 = span.span_count 100 5 ∧
    (span.span_range 64 100 105).read_const mem5 true 4 = .ok 50 ∧
    ((span.span_range 64 100 105).operator_eq mem5 nat_eq 6
      (span.span_count 100 5)).result = .ok true :=
  have h := span_range_eq_span_count mem5 nat_eq 6 true 64 100 105
    (by decide) (by norm_num)
  ⟨by decide, by norm_num, h.1, h.2.2.2.1,
    (h.2.2.2.2.1 4).trans (by decide),
    h.2.2.2.2.2.2 (by decide) (fun _ _ x _ => by simp [nat_eq]) (by decide)⟩

/-! ## Iteration -/

theorem holds_tail {T : Type} {m : Memory T} {p : Nat} {y : T} {ys : List T}
    (h : holds m p (y :: ys)) : holds m (p + 1) ys := by
  intro i hi
  have := h (i + 1) (by simp; omega)
  rw [show p + 1 + i = p + (i + 1) by omega, this]
  simp

theorem holds_init {T : Type} {m : Memory T} {p : Nat} {z : T} {zs : List T}
    (h : holds m p (zs ++ [z])) : holds m p zs := by
  intro i hi
  have := h i (by simp; omega)
  rw [this, List.getElem?_append_left hi]

theorem holds_sub_block {T : Type} {m : Memory T} {base : Nat} {xs : List T}
    (hm : holds m base xs) (b n : Nat) (hbn : b + n ≤ xs.length) :
    holds m (base + b) ((xs.drop b).take n) := by
  intro i hi
  have hin : i < n := by
    simp only [List.length_take, List.length_drop] at hi
    omega
  rw [Nat.add_assoc, hm (b + i) (by omega), List.getElem?_take_of_lt hin,
    List.getElem?_drop]

/-- Forward traversal over a block with enough fuel visits its positions in order. -/
theorem for_each_block {T : Type} (m : Memory T) :
    ∀ (ys : List T) (fuel p : Nat), ys.length < fuel → holds m p ys →
      for_each m fuel p (p + ys.length) = .ok ((List.range' p ys.length).zip ys) := by
  intro ys
  induction ys with
  | nil =>
    intro fuel p hf _
    obtain ⟨f, rfl⟩ : ∃ f, fuel = f + 1 := ⟨fuel - 1, by simp at hf; omega⟩
    simp [for_each]
  | cons y ys ih =>
    intro fuel p hf hm
    have hlen : ys.length + 1 < fuel := by simpa using hf
    obtain ⟨f, rfl⟩ : ∃ f, fuel = f + 1 := ⟨fuel - 1, by omega⟩
    have h0 : m p = some y := by simpa using hm 0 (by simp)
    have hrec := ih f (p + 1) (by omega) (holds_tail hm)
    have hshift : p + 1 + ys.length = p + (ys.length + 1) := by omega
    rw [hshift] at hrec
    have hne : (p != p + (ys.length + 1)) = true := by simp
    simp [for_each, hne, load_of_some h0, Outcome.bind, hrec, Outcome.map,
      List.range'_succ]

/-- Reverse traversal over a block with enough fuel visits its positions backwards. -/
theorem for_each_reverse_block {T : Type} (m : Memory T) :
    ∀ (ys : List T) (fuel p : Nat), ys.length < fuel → holds m p ys →
      for_each_reverse m fuel { current := p + ys.length } { current := p }
        = .ok ((List.range' p ys.length).zip ys).reverse := by
  intro ys
  induction ys using List.reverseRecOn with
  | nil =>
    intro fuel p hf _
    obtain ⟨f, rfl⟩ : ∃ f, fuel = f + 1 := ⟨fuel - 1, by simp at hf; omega⟩
    simp [for_each_reverse]
  | append_singleton zs z ih =>
    intro fuel p hf hm
    have hlen : zs.length + 1 < fuel := by simpa using hf
    obtain ⟨f, rfl⟩ : ∃ f, fuel = f + 1 := ⟨fuel - 1, by omega⟩
    have hz : m (p + zs.length) = some z := by
      have := hm zs.length (by simp)
      simpa using this
    have hrec := ih f p (by omega) (holds_init hm)
    have hne : (p + (zs.length + 1) != p) = true := by simp
    have hzip : (List.range' p (zs.length + 1)).zip (zs ++ [z])
        = (List.range' p zs.length).zip zs ++ [(p + zs.length, z)] := by
      rw [List.range'_concat, List.zip_append (by simp)]
      simp
    simp only [List.length_append, List.length_singleton]
    rw [hzip, List.reverse_append]
    simp [for_each_reverse, hne, reverse_iterator.position, reverse_iterator.next,
      load_of_some hz, Outcome.bind, hrec, Outcome.map]

/-- C6: for a storage block `xs` living at `base` and the view over it at offset `b`
with size `n`, forward traversal from `begin()` to `end()` (either overload), with
fuel above `n`, visits exactly the `n` positions `base + b, ..., base + b + n - 1` in
that order and finds there the storage elements `xs[b], ..., xs[b + n - 1]`; reverse
traversal (reverse iterators over `end()` and `begin()`) yields the same in the
opposite order. -/
theorem traversal_yields_storage_in_order {T : Type} (m : Memory T) (base : Nat)
    (xs : List T) (b n fuel : Nat)
    (hm : holds m base xs) (hbn : b + n ≤ xs.length) (hfuel : n < fuel) :
    for_each m fuel (span.span_count (base + b) n).begin_const
        (span.span_count (base + b) n).end_const
      = .ok ((List.range' (base + b) n).zip ((xs.drop b).take n)) ∧
    for_each m fuel (span.span_count (base + b) n).begin_mut
        (span.span_count (base + b) n).end_mut
      = .ok ((List.range' (base + b) n).zip ((xs.drop b).take n)) ∧
    for_each_reverse m fuel { current := (span.span_count (base + b) n).end_const }
        { current := (span.span_count (base + b) n).begin_const }
      = .ok ((List.range' (base + b) n).zip ((xs.drop b).take n)).reverse ∧
    ((List.range' (base + b) n).zip ((xs.drop b).take n)).length = n ∧
    (∀ i : Nat, i < n → ((xs.drop b).take n)[i]? = xs[b + i]?) := by
  have hlen : ((xs.drop b).take n).length = n := by
    simp only [List.length_take, List.length_drop]
    omega
  have hsub := holds_sub_block hm b n hbn
  have hfwd := for_each_block m ((xs.drop b).take n) fuel (base + b) (by omega) hsub
  have hbwd := for_each_reverse_block m ((xs.drop b).take n) fuel (base + b)
    (by omega) hsub
  rw [hlen] at hfwd hbwd
  refine ⟨hfwd, hfwd, hbwd, ?_, ?_⟩
  · simp [hlen]
  · intro i hi
    rw [List.getElem?_take_of_lt hi, List.getElem?_drop]

/-- C6 on `[10, 20, 30, 40, 50]` at 100, for the view at offset 1 of size 3. -/
theorem traversal_yields_storage_in_order_witness :
    holds mem5 100 [10, 20, 30, 40, 50] ∧ 1 + 3 ≤ [10, 20, 30, 40, 50].length ∧ 3 < 4 ∧
    for_each mem5 4 (span.span_count (100 + 1) 3).begin_const
        (span.span_count (100 + 1) 3).end_const
      = .ok [(101, 20), (102, 30), (103, 40)] ∧
    for_each_reverse mem5 4 { current := (span.span_count (100 + 1) 3).end_const }
        { current := (span.span_count (100 + 1) 3).begin_const }
      = .ok [(103, 40), (102, 30), (101, 20)] :=
  have h := traversal_yields_storage_in_order mem5 100 [10, 20, 30, 40, 50] 1 3 4
    (by decide) (by decide) (by decide)
  ⟨by decide, by decide, by decide, h.1, h.2.2.1⟩

theorem to_differenc_type_of_small (w k : Nat) (h : 2 * k < 2 ^ w) :
    to_differenc_type w (k : Int) = (k : Int) := by
  have hk : (k : Int) < (2 : Int) ^ w := by
    have : k < 2 ^ w := by omega
    exact_mod_cast this
  have hmod : (k : Int) % (2 : Int) ^ w = (k : Int) :=
    Int.emod_eq_of_lt (Int.ofNat_nonneg k) hk
  have h2 : 2 * (k : Int) < (2 : Int) ^ w := by exact_mod_cast h
  unfold to_differenc_type
  rw [hmod, if_pos h2]

/-- Where the end of a view fits the address space and its extent fits `ptrdiff_t`,
wrapping arithmetic on byte addresses agrees with exact arithmetic. -/
theorem wrapping_agrees_with_exact (w sz d n : Nat) (hsz : 0 < sz)
    (hend : sz * (d + n) < 2 ^ w) (hmax : 2 * (sz * n) < 2 ^ w) :
    (sz * d) % 2 ^ w = sz * d ∧
    (sz * d + sz * n) % 2 ^ w = sz * d + sz * n ∧
    distance_bytes w sz (sz * d) (sz * d + sz * n) = (n : Int) ∧
    (sz * d = sz * d + sz * n ↔ n = 0) ∧
    (d = d + n ↔ n = 0) ∧
    ((d + n : Nat) : Int) - (d : Int) = (n : Int) := by
  have hsplit : sz * (d + n) = sz * d + sz * n := Nat.mul_add sz d n
  have hdist : distance_bytes w sz (sz * d) (sz * d + sz * n) = (n : Int) := by
    unfold distance_bytes
    have hsub : ((sz * d + sz * n : Nat) : Int) - ((sz * d : Nat) : Int)
        = ((sz * n : Nat) : Int) := by
      push_cast; ring
    rw [hsub, to_differenc_type_of_small w (sz * n) hmax]
    push_cast
    exact Int.mul_ediv_cancel_left (n : Int) (by exact_mod_cast Nat.pos_iff_ne_zero.mp hsz)
  refine ⟨Nat.mod_eq_of_lt (by omega), Nat.mod_eq_of_lt (by omega), hdist, ?_, ?_, ?_⟩
  · constructor
    · intro h
      have h0 : sz * n = 0 := by omega
      rcases Nat.mul_eq_zero.mp h0 with h1 | h1
      · omega
      · exact h1
    · intro h; rw [h]; simp
  · constructor
    · intro h; omega
    · intro h; omega
  · push_cast; ring

/-- C7 as stated fails for views whose end does not fit the `w`-bit address space.
With 64-bit pointers, the view built by `span(first = 13, last = 10)` over one-byte
elements has size `2 ^ 64 - 3`, `begin()` at 13 and `end()` at 10, so the distance
from `begin()` to `end()` is `-3`, not `size()`; and the view `span(p, 2 ^ 62)` over
four-byte elements has `begin() == end()` although `size()` is not 0. -/
theorem distance_differs_from_size_when_end_wraps :
    (span.span_range 64 13 10).size = 2 ^ 64 - 3 ∧
    (span.span_range 64 13 10).begin_bytes 64 1 = 13 ∧
    (span.span_range 64 13 10).end_bytes 64 1 = 10 ∧
    distance_bytes 64 1 ((span.span_range 64 13 10).begin_bytes 64 1)
      ((span.span_range 64 13 10).end_bytes 64 1) = -3 ∧
    distance_bytes 64 1 ((span.span_range 64 13 10).begin_bytes 64 1)
      ((span.span_range 64 13 10).end_bytes 64 1)
        ≠ ((span.span_range 64 13 10).size : Int) ∧
    (span.span_count 25 (2 ^ 62)).size ≠ 0 ∧
    (span.span_count 25 (2 ^ 62)).begin_bytes 64 4
      = (span.span_count 25 (2 ^ 62)).end_bytes 64 4 := by
  have heq : span.span_range 64 13 10 = span.span_count 13 (2 ^ 64 - 3) := by
    unfold span.span_range
    rw [to_index_type_ptr_diff_reversed 64 13 10 (by decide) (by norm_num)]
    norm_num
  have hb : (span.span_count 13 (2 ^ 64 - 3)).begin_bytes 64 1 = 13 := by
    norm_num [span.begin_bytes, byte_address, span.span_count]
  have he : (span.span_count 13 (2 ^ 64 - 3)).end_bytes 64 1 = 10 := by
    norm_num [span.end_bytes, byte_address, span.span_count]
  have hd : distance_bytes 64 1 13 10 = -3 := by
    norm_num [distance_bytes, to_differenc_type]
  rw [heq, hb, he, hd]
  refine ⟨rfl, rfl, rfl, rfl, ?_, ?_, ?_⟩
  · norm_num [span.size, span.span_count]
  · norm_num [span.size, span.span_count]
  · norm_num [span.begin_bytes, span.end_bytes, byte_address, span.span_count]

/-- C7, amended: for every view whose end `data() + size()` fits the `w`-bit address
space and whose extent in bytes is at most `PTRDIFF_MAX` (as for every valid view,
and for the default-constructed view), the distance from `begin()` to `end()` equals
`size()`, `end()` is `begin()` advanced by `size()` elements, and `begin() == end()`
exactly when `size() == 0`; there the machine's wrapping arithmetic agrees with exact
arithmetic on element addresses, for the const and the mutable overloads alike. -/
theorem distance_begin_end_eq_size (w sz : Nat) (v : span) (hsz : 0 < sz)
    (hend : sz * (v.data_const + v.size) < 2 ^ w) (hmax : 2 * (sz * v.size) < 2 ^ w) :
    distance_bytes w sz (v.begin_bytes w sz) (v.end_bytes w sz) = (v.size : Int) ∧
    v.end_bytes w sz = v.begin_bytes w sz + sz * v.size ∧
    (v.begin_bytes w sz = v.end_bytes w sz ↔ v.size = 0) ∧
    v.begin_bytes w sz = sz * v.begin_const ∧
    v.begin_bytes w sz = sz * v.begin_mut ∧
    v.end_bytes w sz = sz * v.end_const ∧
    v.end_bytes w sz = sz * v.end_mut ∧
    distance v.begin_const v.end_const = (v.size : Int) ∧
    distance v.begin_mut v.end_mut = (v.size : Int) ∧
    v.end_const = v.begin_const + v.size ∧
    v.end_mut = v.begin_mut + v.size ∧
    (v.begin_const = v.end_const ↔ v.size = 0) ∧
    (v.begin_mut = v.end_mut ↔ v.size = 0) := by
  obtain ⟨d, n⟩ := v
  obtain ⟨hb, he, hdist, hzb, hz, hexact⟩ := wrapping_agrees_with_exact w sz d n hsz hend hmax
  have hb2 : span.begin_bytes w sz { data_ := d, size_ := n } = sz * d := hb
  have he2 : span.end_bytes w sz { data_ := d, size_ := n } = sz * d + sz * n := by
    show ((sz * d) % 2 ^ w + sz * n) % 2 ^ w = sz * d + sz * n
    rw [hb]; exact he
  rw [hb2, he2]
  exact ⟨hdist, rfl, hzb, rfl, rfl, (Nat.mul_add sz d n).symm, (Nat.mul_add sz d n).symm,
    hexact, hexact, rfl, rfl, hz, hz⟩

/-- C7 on the view of five four-byte elements at element address 100, with 64-bit
pointers: the distance from `begin()` (byte 400) to `end()` (byte 420) is 5. -/
theorem distance_begin_end_eq_size_witness :
    0 < 4 ∧ 4 * ((span.span_count 100 5).data_const + (span.span_count 100 5).size) < 2 ^ 64 ∧
    2 * (4 * (span.span_count 100 5).size) < 2 ^ 64 ∧
    distance_bytes 64 4 ((span.span_count 100 5).begin_bytes 64 4)
      ((span.span_count 100 5).end_bytes 64 4) = 5 ∧
    (span.span_count 100 5).end_bytes 64 4 = 420 :=
  have h := distance_begin_end_eq_size 64 4 (span.span_count 100 5) (by decide)
    (by norm_num [span.data_const, span.size, span.span_count])
    (by norm_num [span.size, span.span_count])
  ⟨by decide, by norm_num [span.data_const, span.size, span.span_count],
    by norm_num [span.size, span.span_count], h.1,
    h.2.2.2.2.2.1.trans (by decide)⟩

/-- C8: the default-constructed view is empty: `size() == 0`, `data()` is the null
pointer, `begin() == end()`, and traversing it (forwards or backwards, with any
positive fuel, in any memory) produces zero elements. -/
theorem default_view_is_empty {T : Type} (m : Memory T) (fuel : Nat) :
    span.span_default.size = 0 ∧
    span.span_default.data_const = nullptr ∧
    span.span_default.data_mut = nullptr ∧
    span.span_default.begin_const = span.span_default.end_const ∧
    span.span_default.begin_mut = span.span_default.end_mut ∧
    for_each m (fuel + 1) span.span_default.begin_const span.span_default.end_const
      = .ok [] ∧
    for_each m (fuel + 1) span.span_default.begin_mut span.span_default.end_mut
      = .ok [] ∧
    for_each_reverse m (fuel + 1) { current := span.span_default.end_const }
        { current := span.span_default.begin_const } = .ok [] := by
  refine ⟨rfl, rfl, rfl, rfl, rfl, ?_, ?_, ?_⟩
  · simp [for_each, span.span_default, span.begin_const, span.end_const]
  · simp [for_each, span.span_default, span.begin_mut, span.end_mut]
  · simp [for_each_reverse, span.span_default, span.begin_const, span.end_const]

/-! ## Writing through a view -/

theorem update_same {T : Type} (m : Memory T) (p : Nat) (v : T) :
    (m.update p v) p = some v := by
  simp [Memory.update]

theorem update_other {T : Type} (m : Memory T) (p q : Nat) (v : T) (h : q ≠ p) :
    (m.update p v) q = m q := by
  simp [Memory.update, h]

theorem store_of_some {T : Type} {m : Memory T} {p : Nat} {u : T} (v : T)
    (h : m p = some u) : store m p v = .ok (m.update p v) := by
  simp [store, h]

theorem write_mut_in_range {T : Type} (m : Memory T) (assert_enabled : Bool) (s : span)
    (i : Nat) (v u : T) (hi : i < s.size_) (hu : m (s.data_ + i) = some u) :
    s.write_mut m assert_enabled i v
      = .ok { mem := m.update (s.data_ + i) v, view := s } := by
  simp [span.write_mut, subscript_mut_in_range assert_enabled s i hi, Outcome.bind,
    store_of_some v hu]

theorem holds_update {T : Type} {m : Memory T} {base : Nat} {xs : List T}
    (hm : holds m base xs) (k : Nat) (v : T) :
    holds (m.update (base + k) v) base (xs.set k v) := by
  intro i hi
  have hi2 : i < xs.length := by simpa using hi
  by_cases h : i = k
  · subst h
    rw [update_same]
    simp [hi2]
  · have hne : base + i ≠ base + k := by omega
    rw [update_other m _ _ v hne, hm i hi2, List.getElem?_set_ne (Ne.symm h)]

/-- C11: for a storage block `xs` living at `base`, the view over it at offset `b`
with size `n`, an index `i < n` and a value `v`, the write `view[i] = v` through the
mutable `operator[]` succeeds, leaves the view object as it was, and replaces the
element at address `base + (b + i)` only: afterwards `view[i]` reads `v`, memory at
every other address is unchanged, the storage block is `xs` with position `b + i`
set to `v`, and `size()` and `data()` are unchanged. -/
theorem write_changes_exactly_one_element {T : Type} (m : Memory T) (base : Nat)
    (xs : List T) (b n i : Nat) (v : T) (assert_enabled : Bool)
    (hm : holds m base xs) (hbn : b + n ≤ xs.length) (hi : i < n) :
    span.write_mut m assert_enabled (span.span_count (base + b) n) i v
      = .ok { mem := m.update (base + (b + i)) v, view := span.span_count (base + b) n } ∧
    span.read_mut (m.update (base + (b + i)) v) assert_enabled
      (span.span_count (base + b) n) i = .ok v ∧
    span.read_const (m.update (base + (b + i)) v) assert_enabled
      (span.span_count (base + b) n) i = .ok v ∧
    (∀ q : Nat, q ≠ base + (b + i) → (m.update (base + (b + i)) v) q = m q) ∧
    holds (m.update (base + (b + i)) v) base (xs.set (b + i) v) ∧
    (∀ j : Nat, j ≠ b + i → (xs.set (b + i) v)[j]? = xs[j]?) ∧
    (span.span_count (base + b) n).size = n ∧
    (span.span_count (base + b) n).data_const = base + b ∧
    (span.span_count (base + b) n).data_mut = base + b := by
  have hk : b + i < xs.length := by omega
  have hin : i < (span.span_count (base + b) n).size_ := hi
  have haddr : (span.span_count (base + b) n).data_ + i = base + (b + i) :=
    Nat.add_assoc base b i
  have hcell : m ((span.span_count (base + b) n).data_ + i) = some (xs.get ⟨b + i, hk⟩) := by
    rw [haddr]; exact holds_get hm (b + i) hk
  have hread : load (m.update (base + (b + i)) v)
      ((span.span_count (base + b) n).data_ + i) = .ok v := by
    rw [haddr]; exact load_of_some (update_same m _ v)
  refine ⟨?_, ?_, ?_, ?_, holds_update hm (b + i) v, ?_, rfl, rfl, rfl⟩
  · rw [write_mut_in_range m assert_enabled _ i v _ hin hcell, haddr]
  · rw [read_mut_in_range _ _ _ _ hin]; exact hread
  · rw [read_const_in_range _ _ _ _ hin]; exact hread
  · intro q hq; exact update_other m _ q v hq
  · intro j hj; exact List.getElem?_set_ne (Ne.symm hj)

/-- C11 on `[10, 20, 30, 40, 50]` at 100: writing 7 at index 1 of the view of size 3 at
offset 1 makes `view[1]` read 7 and turns the block into `[10, 20, 7, 40, 50]`. -/
theorem write_changes_exactly_one_element_witness :
    holds mem5 100 [10, 20, 30, 40, 50] ∧ 1 + 3 ≤ [10, 20, 30, 40, 50].length ∧ 1 < 3 ∧
    span.read_const (mem5.update (100 + (1 + 1)) 7) true (span.span_count (100 + 1) 3) 1
      = .ok 7 ∧
    holds (mem5.update (100 + (1 + 1)) 7) 100 [10, 20, 7, 40, 50] :=
  have h := write_changes_exactly_one_element mem5 100 [10, 20, 30, 40, 50] 1 3 1 7 true
    (by decide) (by decide) (by decide)
  ⟨by decide, by decide, by decide, h.2.2.1, h.2.2.2.2.1⟩

/-! ## Copying, raw access and read-only calls -/

theorem span_copy_eq (v : span) : span.span_copy v = v := by
  cases v; rfl

/-- C12 as stated fails: the copy of a view has the same reference and size, but it
does not compare equal to the view when an element is not equal to itself (the valid
view over `[nan]`), nor when the view is not valid (one element claimed at an
address where nothing lives). -/
theorem span_copy_eq_fails_without_reflexivity_or_validity :
    span.valid mem_nan (span.span_count 100 1) ∧
    span.span_copy (span.span_count 100 1) = span.span_count 100 1 ∧
    ((span.span_copy (span.span_count 100 1)).operator_eq mem_nan Sample.eq 2
      (span.span_count 100 1)).result = .ok false ∧
    (∀ fuel : Nat, ((span.span_copy (span.span_count 100 1)).operator_eq mem_nan
      Sample.eq fuel (span.span_count 100 1)).result ≠ .ok true) ∧
    ((span.span_copy (span.span_count 7 1)).operator_eq mem_nan Sample.eq 2
      (span.span_count 7 1)).result = .undefined := by
  refine ⟨by decide, rfl, by decide, ?_, by decide⟩
  intro fuel
  cases fuel with
  | zero => decide
  | succ f =>
    have hrun : ((span.span_copy (span.span_count 100 1)).operator_eq mem_nan Sample.eq
        (f + 1) (span.span_count 100 1)).result = .ok false := by
      simp [span.operator_eq, span.span_copy, span.span_count, span.begin_const,
        span.end_const, std_equal, mem_nan, Memory.place, Memory.empty, Sample.eq]
    rw [hrun]
    intro h
    cases h

/-- C12, amended: copy construction and copy assignment are shallow: the copy of a
view `v` has the same `data()` and the same `size()` as `v`, it is the same value as
`v`, making the copy stores nothing and leaves the memory and the source view as they
were, and the copy compares equal to `v` (in both directions) when `v` is valid and
the element type's equality is reflexive on the viewed elements (each element read
through `v` is equal to itself). -/
theorem span_copy_is_shallow {T : Type} (m : Memory T) (eq : T → T → Bool) (fuel : Nat)
    (assert_enabled : Bool) (v : span) :
    (span.span_copy v).data_const = v.data_const ∧
    (span.span_copy v).data_mut = v.data_mut ∧
    (span.span_copy v).size = v.size ∧
    span.span_copy v = v ∧
    Call.exec eq fuel assert_enabled Call.copy { mem := m, view := v }
      = (.ok (.view (span.span_copy v)), { mem := m, view := v }) ∧
    (v.valid m →
      (∀ i : Nat, i < v.size → ∀ x, v.read_const m true i = .ok x → eq x x = true) →
      v.size < fuel →
      ((span.span_copy v).operator_eq m eq fuel v).result = .ok true ∧
      (v.operator_eq m eq fuel (span.span_copy v)).result = .ok true) := by
  refine ⟨rfl, rfl, rfl, span_copy_eq v, rfl, ?_⟩
  intro hv hrefl hfuel
  rw [span_copy_eq v]
  exact ⟨operator_eq_self_local m eq fuel v hv hrefl hfuel,
    operator_eq_self_local m eq fuel v hv hrefl hfuel⟩

/-- C12 on the view over `[num 1]` at 100, for the element type whose `nan` is not
equal to itself: the one element viewed is equal to itself, so the copy is `==` to
the view. -/
theorem span_copy_is_shallow_witness :
    span.valid mem_num (span.span_count 100 1) ∧
    (∀ i : Nat, i < (span.span_count 100 1).size → ∀ x,
      (span.span_count 100 1).read_const mem_num true i = .ok x →
        Sample.eq x x = true) ∧
    (span.span_count 100 1).size < 2 ∧
    span.span_copy (span.span_count 100 1) = span.span_count 100 1 ∧
    ((span.span_copy (span.span_count 100 1)).operator_eq mem_num Sample.eq 2
      (span.span_count 100 1)).result = .ok true :=
  have hrefl : ∀ i : Nat, i < (span.span_count 100 1).size → ∀ x,
      (span.span_count 100 1).read_const mem_num true i = .ok x →
        Sample.eq x x = true := by
    intro i hi x hx
    have hi0 : i = 0 := Nat.lt_one_iff.mp hi
    subst hi0
    have h0 : (span.span_count 100 1).read_const mem_num true 0 = .ok (Sample.num 1) := by
      decide
    rw [h0] at hx
    cases hx
    rfl
  have h := span_copy_is_shallow mem_num Sample.eq 2 true (span.span_count 100 1)
  ⟨by decide, hrefl, by decide, h.2.2.2.1,
    (h.2.2.2.2.2 (by decide) hrefl (by decide)).1⟩

/-- C13 as stated fails: a view of size 0 built from a non-null reference, by either
constructor, returns that reference from `data()`, not the null reference. -/
theorem data_of_empty_view_not_null :
    (span.span_count 100 0).size = 0 ∧
    (span.span_count 100 0).data_const = 100 ∧
    (span.span_count 100 0).data_const ≠ nullptr ∧
    (span.span_count 100 0).data_mut ≠ nullptr ∧
    (span.span_range 64 100 100).size = 0 ∧
    (span.span_range 64 100 100).data_const ≠ nullptr := by
  have hr : span.span_range 64 100 100 = span.span_count 100 0 := by
    unfold span.span_range
    rw [to_index_type_ptr_diff 64 100 100 (by decide) (by norm_num)]
  refine ⟨rfl, rfl, by decide, by decide, ?_, ?_⟩
  · rw [hr]; rfl
  · rw [hr]; decide

/-- C13, amended: `data()` (either overload) returns the stored reference verbatim,
the same position as `begin()`.  For the default-constructed view it is the null
reference; for a view of size 0 built from a reference `p` it is `p`; and for every
view with `size() > 0` it is the reference to the first element, the one that
`view[0]` returns. -/
theorem data_returns_stored_reference (v : span) (w p : Nat) :
    v.data_const = v.begin_const ∧
    v.data_mut = v.begin_mut ∧
    span.span_default.data_const = nullptr ∧
    span.span_default.data_mut = nullptr ∧
    (span.span_count p 0).data_const = p ∧
    (span.span_count p 0).data_mut = p ∧
    (span.span_range w p p).size = 0 ∧
    (span.span_range w p p).data_const = p ∧
    v.subscript_const true 0
      = (if 0 < v.size then .ok v.data_const else .assertion_failure) ∧
    v.subscript_mut true 0
      = (if 0 < v.size then .ok v.data_mut else .assertion_failure) ∧
    v.subscript_const false 0 = .ok v.data_const ∧
    v.subscript_mut false 0 = .ok v.data_mut := by
  have hsize : v.size = v.size_ := rfl
  have hrange : span.span_range w p p = span.span_count p 0 := by
    unfold span.span_range
    rw [to_index_type_ptr_diff w p p (Nat.le_refl p) (by simp)]
    simp
  refine ⟨rfl, rfl, rfl, rfl, rfl, rfl, ?_, ?_, ?_, ?_, ?_, ?_⟩
  · rw [hrange]; rfl
  · rw [hrange]; rfl
  · by_cases h : 0 < v.size_ <;>
      simp [span.subscript_const, span.data_const, assert, Outcome.bind, hsize, h]
  · by_cases h : 0 < v.size_ <;>
      simp [span.subscript_mut, span.data_mut, assert, Outcome.bind, hsize, h]
  · simp [span.subscript_const, span.data_const, assert, Outcome.bind]
  · simp [span.subscript_mut, span.data_mut, assert, Outcome.bind]

theorem exec_read_only_state {T : Type} (eq : T → T → Bool) (fuel : Nat)
    (assert_enabled : Bool) (c : Call T) (s : State T) (hc : c.read_only = true) :
    (c.exec eq fuel assert_enabled s).2 = s := by
  cases c <;> first | rfl | (simp [Call.read_only] at hc)

theorem run_calls_read_only_state {T : Type} (eq : T → T → Bool) (fuel : Nat)
    (assert_enabled : Bool) :
    ∀ (cs : List (Call T)) (s : State T), (∀ c ∈ cs, c.read_only = true) →
      run_calls eq fuel assert_enabled cs s = s := by
  intro cs
  induction cs with
  | nil => intro s _; rfl
  | cons c cs ih =>
    intro s h
    simp only [run_calls]
    rw [exec_read_only_state eq fuel assert_enabled c s (h c (List.mem_cons_self c cs))]
    exact ih s (fun d hd => h d (List.mem_cons_of_mem c hd))

/-- C14: a read-only call (`size()`, `data()`, `begin()`, `end()`, the const
`operator[]`, `operator==`, `operator!=`) leaves the state, that is the view's
reference and size and the memory, unchanged; so the same call made again, also
after any sequence of further read-only calls, returns the same result. -/
theorem read_only_calls_are_repeatable {T : Type} (eq : T → T → Bool) (fuel : Nat)
    (assert_enabled : Bool) (c : Call T) (cs : List (Call T)) (s : State T)
    (hc : c.read_only = true) (hcs : ∀ d ∈ cs, d.read_only = true) :
    (c.exec eq fuel assert_enabled s).2 = s ∧
    (c.exec eq fuel assert_enabled s).2.view.data_ = s.view.data_ ∧
    (c.exec eq fuel assert_enabled s).2.view.size_ = s.view.size_ ∧
    (c.exec eq fuel assert_enabled s).2.mem = s.mem ∧
    c.exec eq fuel assert_enabled (c.exec eq fuel assert_enabled s).2
      = c.exec eq fuel assert_enabled s ∧
    c.exec eq fuel assert_enabled
        (run_calls eq fuel assert_enabled cs (c.exec eq fuel assert_enabled s).2)
      = c.exec eq fuel assert_enabled s := by
  have h1 := exec_read_only_state eq fuel assert_enabled c s hc
  refine ⟨h1, ?_, ?_, ?_, ?_, ?_⟩
  · rw [h1]
  · rw [h1]
  · rw [h1]
  · rw [h1]
  · rw [h1, run_calls_read_only_state eq fuel assert_enabled cs s hcs]

/-- C14 on the view over `[1, 2, 3]` at 10: `view == other` asked again after `size()`,
`view[1]` and `end()` returns what it returned the first time, `true`. -/
theorem read_only_calls_are_repeatable_witness :
    (Call.operator_eq (span.span_count 20 3) : Call Nat).read_only = true ∧
    (∀ d ∈ [Call.size, Call.subscript_const 1, (Call.end_const : Call Nat)],
      d.read_only = true) ∧
    (Call.exec nat_eq 4 true (Call.operator_eq (span.span_count 20 3))
      { mem := mem3, view := span.span_count 10 3 }).1 = .ok (.boolean true) ∧
    (Call.exec nat_eq 4 true (Call.operator_eq (span.span_count 20 3))
      (run_calls nat_eq 4 true [Call.size, Call.subscript_const 1, Call.end_const]
        (Call.exec nat_eq 4 true (Call.operator_eq (span.span_count 20 3))
          { mem := mem3, view := span.span_count 10 3 }).2)).1 = .ok (.boolean true) :=
  have hcs : ∀ d ∈ [Call.size, Call.subscript_const 1, (Call.end_const : Call Nat)],
      d.read_only = true := by
    intro d hd
    simp only [List.mem_cons, List.mem_singleton, List.not_mem_nil, or_false] at hd
    rcases hd with h | h | h <;> subst h <;> rfl
  have h := read_only_calls_are_repeatable nat_eq 4 true
    (Call.operator_eq (span.span_count 20 3))
    [Call.size, Call.subscript_const 1, Call.end_const]
    { mem := mem3, view := span.span_count 10 3 } rfl hcs
  have h0 : (Call.exec nat_eq 4 true (Call.operator_eq (span.span_count 20 3))
      { mem := mem3, view := span.span_count 10 3 }).1 = .ok (.boolean true) := by decide
  ⟨rfl, hcs, h0, by rw [h.2.2.2.2.2]; exact h0⟩

/-! ## Views sharing storage -/

/-- With enough fuel, `operator==` between valid views returns `true` exactly when
the sizes agree and the elements agree pairwise. -/
theorem operator_eq_true_iff {T : Type} (m : Memory T) (eq : T → T → Bool)
    (fuel : Nat) (A B : span) (hA : A.valid m) (hB : B.valid m) (hfuel : A.size_ < fuel) :
    (A.operator_eq m eq fuel B).result = .ok true ↔
      A.size_ = B.size_ ∧ ∀ i : Nat, i < A.size_ →
        ∃ x y, m (A.data_ + i) = some x ∧ m (B.data_ + i) = some y ∧ eq x y = true := by
  by_cases hs : A.size_ = B.size_
  · obtain ⟨b, hrun, hiff⟩ := operator_eq_result m eq fuel A B hA hB hfuel hs
    rw [hrun]
    constructor
    · intro h
      have hbt : b = true := by injection h
      exact ⟨hs, hiff.mp hbt⟩
    · rintro ⟨_, h⟩
      rw [hiff.mpr h]
  · rw [operator_eq_sizes_differ m eq fuel A B hs]
    constructor
    · intro h; cases h
    · rintro ⟨h, _⟩; exact absurd h hs

/-- A result of `operator==` between valid views, with enough fuel, is a Boolean. -/
theorem operator_eq_returns {T : Type} (m : Memory T) (eq : T → T → Bool)
    (fuel : Nat) (A B : span) (hA : A.valid m) (hB : B.valid m) (hfuel : A.size_ < fuel) :
    ∃ b, (A.operator_eq m eq fuel B).result = .ok b := by
  by_cases hs : A.size_ = B.size_
  · obtain ⟨b, hrun, _⟩ := operator_eq_result m eq fuel A B hA hB hfuel hs
    exact ⟨b, hrun⟩
  · exact ⟨false, by rw [operator_eq_sizes_differ m eq fuel A B hs]⟩

/-- C16: when the element type's equality is reflexive, symmetric and transitive,
`operator==` on valid views (with fuel above the size) is an equivalence relation:
`A == A` is `true`, `A == B` implies `B == A`, and `A == B` with `B == C` implies
`A == C`; moreover `B == A` returns the very Boolean that `A == B` returns. -/
theorem operator_eq_is_equivalence {T : Type} (m : Memory T) (eq : T → T → Bool)
    (fuel : Nat) (A B C : span)
    (hrefl : ∀ x, eq x x = true)
    (hsymm : ∀ x y, eq x y = true → eq y x = true)
    (htrans : ∀ x y z, eq x y = true → eq y z = true → eq x z = true)
    (hA : A.valid m) (hB : B.valid m) (hC : C.valid m) (hfuel : A.size < fuel) :
    (A.operator_eq m eq fuel A).result = .ok true ∧
    ((A.operator_eq m eq fuel B).result = .ok true →
      (B.operator_eq m eq fuel A).result = .ok true) ∧
    ((A.operator_eq m eq fuel B).result = .ok true →
      (B.operator_eq m eq fuel C).result = .ok true →
      (A.operator_eq m eq fuel C).result = .ok true) ∧
    (B.operator_eq m eq fuel A).result = (A.operator_eq m eq fuel B).result := by
  have hfA : A.size_ < fuel := hfuel
  have hsym : (A.operator_eq m eq fuel B).result = .ok true →
      (B.operator_eq m eq fuel A).result = .ok true := by
    intro hab
    obtain ⟨hs, hel⟩ := (operator_eq_true_iff m eq fuel A B hA hB hfA).mp hab
    refine (operator_eq_true_iff m eq fuel B A hB hA (hs ▸ hfA)).mpr ⟨hs.symm, ?_⟩
    intro i hi
    obtain ⟨x, y, hx, hy, hxy⟩ := hel i (hs ▸ hi)
    exact ⟨y, x, hy, hx, hsymm x y hxy⟩
  refine ⟨operator_eq_self m eq fuel A hA hrefl hfA, hsym, ?_, ?_⟩
  · intro hab hbc
    obtain ⟨hs, hel⟩ := (operator_eq_true_iff m eq fuel A B hA hB hfA).mp hab
    obtain ⟨hs2, hel2⟩ := (operator_eq_true_iff m eq fuel B C hB hC (hs ▸ hfA)).mp hbc
    refine (operator_eq_true_iff m eq fuel A C hA hC hfA).mpr ⟨hs.trans hs2, ?_⟩
    intro i hi
    obtain ⟨x, y, hx, hy, hxy⟩ := hel i hi
    obtain ⟨y2, z, hy2, hz, hyz⟩ := hel2 i (hs ▸ hi)
    rw [hy] at hy2
    cases hy2
    exact ⟨x, z, hx, hz, htrans x y z hxy hyz⟩
  · by_cases hs : A.size_ = B.size_
    · obtain ⟨b, hab⟩ := operator_eq_returns m eq fuel A B hA hB hfA
      obtain ⟨c, hba⟩ := operator_eq_returns m eq fuel B A hB hA (hs ▸ hfA)
      cases b with
      | true => rw [hab]; exact hsym hab
      | false =>
        cases c with
        | false => rw [hab, hba]
        | true =>
          obtain ⟨_, hel⟩ := (operator_eq_true_iff m eq fuel B A hB hA (hs ▸ hfA)).mp hba
          have hab2 : (A.operator_eq m eq fuel B).result = .ok true := by
            refine (operator_eq_true_iff m eq fuel A B hA hB hfA).mpr ⟨hs, ?_⟩
            intro i hi
            obtain ⟨x, y, hx, hy, hxy⟩ := hel i (hs ▸ hi)
            exact ⟨y, x, hy, hx, hsymm x y hxy⟩
          rw [hab] at hab2
          cases hab2
    · rw [operator_eq_sizes_differ m eq fuel A B hs,
        operator_eq_sizes_differ m eq fuel B A (fun h => hs h.symm)]

/-- C16 on the blocks `[1, 2, 3]` at 10 and at 20 with the equality of `Nat`. -/
theorem operator_eq_is_equivalence_witness :
    (∀ x, nat_eq x x = true) ∧ (∀ x y, nat_eq x y = true → nat_eq y x = true) ∧
    (∀ x y z, nat_eq x y = true → nat_eq y z = true → nat_eq x z = true) ∧
    span.valid mem3 (span.span_count 10 3) ∧ span.valid mem3 (span.span_count 20 3) ∧
    (span.span_count 10 3).size < 4 ∧
    ((span.span_count 10 3).operator_eq mem3 nat_eq 4 (span.span_count 10 3)).result
      = .ok true ∧
    ((span.span_count 20 3).operator_eq mem3 nat_eq 4 (span.span_count 10 3)).result
      = ((span.span_count 10 3).operator_eq mem3 nat_eq 4 (span.span_count 20 3)).result :=
  have hr : ∀ x, nat_eq x x = true := by simp [nat_eq]
  have hs : ∀ x y, nat_eq x y = true → nat_eq y x = true := by
    intro x y h; simp [nat_eq] at h ⊢; exact h.symm
  have ht : ∀ x y z, nat_eq x y = true → nat_eq y z = true → nat_eq x z = true := by
    intro x y z h1 h2; simp [nat_eq] at h1 h2 ⊢; exact h1.trans h2
  have h := operator_eq_is_equivalence mem3 nat_eq 4 (span.span_count 10 3)
    (span.span_count 20 3) (span.span_count 10 3) hr hs ht
    (by decide) (by decide) (by decide) (by decide)
  ⟨hr, hs, ht, by decide, by decide, by decide, h.1, h.2.2.2⟩

/-! ## Reversed pointer pair and empty views -/

/-- C17: the pointer-pair constructor performs no validation.  For `last < first`
(two `w`-bit addresses, so less than `2 ^ w` apart) it returns the view with
`data() == first` and `size() == 2 ^ w - (first - last)`, which is not zero.  When the
signed distance `last - first` is a value of the `w`-bit `ptrdiff_t` (at most
`2 ^ (w - 1)` elements apart, as any two references into one storage are), that size
exceeds the length of every storage block that `ptrdiff_t` can measure (fewer than
`2 ^ (w - 1)` elements). -/
theorem span_range_reversed_wraps (w first last : Nat) (hlt : last < first)
    (haddr : first - last < 2 ^ w) :
    (span.span_range w first last).size = 2 ^ w - (first - last) ∧
    (span.span_range w first last).size ≠ 0 ∧
    (span.span_range w first last).data_const = first ∧
    (span.span_range w first last).data_mut = first ∧
    span.span_range w first last = span.span_count first (2 ^ w - (first - last)) ∧
    (2 * (first - last) ≤ 2 ^ w →
      ∀ len : Nat, 2 * len < 2 ^ w → len < (span.span_range w first last).size) := by
  have hk : 0 < first - last := Nat.sub_pos_of_lt hlt
  have hw : first - last ≤ 2 ^ w := Nat.le_of_lt haddr
  have hlt2 : 2 ^ w - (first - last) < 2 ^ w := by omega
  have hsize : to_index_type w (ptr_diff last first) = 2 ^ w - (first - last) := by
    rw [to_index_type_ptr_diff_reversed w first last hlt hw, Nat.mod_eq_of_lt hlt2]
  have heq : span.span_range w first last
      = span.span_count first (2 ^ w - (first - last)) := by
    unfold span.span_range
    rw [hsize]
  have hs : (span.span_range w first last).size = 2 ^ w - (first - last) := by
    rw [heq]; rfl
  have hnz : 2 ^ w - (first - last) ≠ 0 := by omega
  refine ⟨hs, ?_, ?_, ?_, heq, ?_⟩
  · rw [hs]; exact hnz
  · rw [heq]; rfl
  · rw [heq]; rfl
  · intro hrep len hlen
    rw [hs]; omega

/-- C17 with an 8-bit `size_t`: `span(first = 13, last = 10)` has size `256 - 3`, above
the length 100 of a storage block. -/
theorem span_range_reversed_wraps_witness :
    10 < 13 ∧ 13 - 10 < 2 ^ 8 ∧
    (span.span_range 8 13 10).size = 253 ∧
    (span.span_range 8 13 10).data_const = 13 ∧
    100 < (span.span_range 8 13 10).size :=
  have h := span_range_reversed_wraps 8 13 10 (by decide) (by decide)
  ⟨by decide, by decide, h.1, h.2.2.1, h.2.2.2.2.2 (by decide) 100 (by decide)⟩

/-- C18: any two views of size 0 compare equal whatever their references, and the
comparison reads no element (any positive fuel suffices); in particular the
default-constructed view equals `span(p, 0)` and `span(p, p)` for every `p`, in both
directions. -/
theorem empty_views_are_equal {T : Type} (m : Memory T) (eq : T → T → Bool)
    (fuel : Nat) (A B : span) (w p : Nat) (hA : A.size = 0) (hB : B.size = 0) :
    A.operator_eq m eq (fuel + 1) B = { result := .ok true, reads := [] } ∧
    span.span_default.operator_eq m eq (fuel + 1) (span.span_count p 0)
      = { result := .ok true, reads := [] } ∧
    (span.span_count p 0).operator_eq m eq (fuel + 1) span.span_default
      = { result := .ok true, reads := [] } ∧
    span.span_default.operator_eq m eq (fuel + 1) (span.span_range w p p)
      = { result := .ok true, reads := [] } ∧
    (span.span_range w p p).operator_eq m eq (fuel + 1) span.span_default
      = { result := .ok true, reads := [] } := by
  have key : ∀ X Y : span, X.size_ = 0 → Y.size_ = 0 →
      X.operator_eq m eq (fuel + 1) Y = { result := .ok true, reads := [] } := by
    intro X Y hX hY
    simp [span.operator_eq, hX, hY, span.begin_const, span.end_const, std_equal]
  have hrange : (span.span_range w p p).size_ = 0 := by
    unfold span.span_range
    rw [to_index_type_ptr_diff w p p (Nat.le_refl p) (by simp)]
    simp [span.span_count]
  exact ⟨key A B hA hB, key _ _ rfl rfl, key _ _ rfl rfl, key _ _ rfl hrange,
    key _ _ hrange rfl⟩

/-- C18 on the null view and the empty view at address 100, in the memory holding
only `[nan]` at 100: equal, with nothing read. -/
theorem empty_views_are_equal_witness :
    span.span_default.size = 0 ∧ (span.span_count 100 0).size = 0 ∧
    span.span_default.operator_eq mem_nan Sample.eq (0 + 1) (span.span_count 100 0)
      = { result := .ok true, reads := [] } :=
  ⟨rfl, rfl, (empty_views_are_equal mem_nan Sample.eq 0 span.span_default
    (span.span_count 100 0) 64 100 rfl rfl).1⟩

end opencombine
